import Mathlib

/-!
Verification of the requirements-gap-analyzer relay server against its
natural-language specification.

The development shallowly embeds the JavaScript source:

* `RGA.parseAnalysisOutput` embeds `parseAnalysisOutput` (app.js, lines
  795-843): three regular expressions applied once to one text blob,
  producing `{summary, gaps, recommendations}`.  Strings are embedded as
  `List Char`; the regex engine's behaviour on these particular patterns
  (leftmost match, lazy/greedy quantifier resolution, lookahead) is
  unfolded into explicit scanning functions.
* `RGA.getApiKey` embeds `getApiKey` (server.js, line 103-105).
* `RGA.uploadPipeline` embeds the multer `fileFilter` plus the
  `POST /api/upload-file` handler (server.js, lines 42-61 and 108-169),
  with the local file system abstracted to an existence flag and an
  unlink counter.
* `RGA.relayRun` embeds the streaming branch of `POST /api/analyze`
  (server.js, lines 239-349) as a step machine over an interleaving of
  upstream stream events and `setInterval` heartbeat ticks.
* `RGA.analyzeValidate` embeds the validation prefix of the same handler
  (server.js, lines 172-192).
-/

namespace RGA

/-- Strings of the JavaScript source are embedded as lists of characters. -/
abbrev Str := List Char

/-! ## JavaScript primitives used by app.js -/

/-- The character class `\s` of JavaScript regular expressions, which is
also the set of characters removed by `String.prototype.trim`:
tab, LF, VT, FF, CR, space, NBSP, and the Unicode space separators. -/
def jsWs (c : Char) : Bool :=
  c == ' ' || c == '\t' || c == '\n' || c == '\x0b' || c == '\x0c' ||
  c == '\r' || c == ' ' || c == ' ' ||
  (0x2000 ≤ c.toNat && c.toNat ≤ 0x200A) ||
  c == ' ' || c == ' ' || c == ' ' || c == ' ' ||
  c == '　' || c == '﻿'

/-- Remove trailing `\s` characters (the tail half of `trim`). -/
def jsTrimEnd : Str → Str
  | [] => []
  | c :: cs =>
    let r := jsTrimEnd cs
    if r.isEmpty && jsWs c then [] else c :: r

/-- JavaScript `String.prototype.trim`. -/
def jsTrim (s : Str) : Str := jsTrimEnd (s.dropWhile jsWs)

/-- Case-sensitive literal match at the head of the text:
`litAt pat s` holds when `s` starts with `pat`. -/
def litAt : Str → Str → Bool
  | [], _ => true
  | _ :: _, [] => false
  | p :: ps, c :: cs => c == p && litAt ps cs

/-- Case-insensitive literal match at the head of the text (the `/i` flag;
the pattern is given in lower case).  On success, returns the rest of the
text after the matched literal. -/
def dropCI : Str → Str → Option Str
  | [], s => some s
  | _ :: _, [] => none
  | p :: ps, c :: cs => if c.toLower == p then dropCI ps cs else none

/-- Whether a case-insensitive occurrence of the (lower-case) pattern
appears anywhere in the text. -/
def containsCI (pat : Str) : Str → Bool
  | [] => (dropCI pat []).isSome
  | c :: cs => (dropCI pat (c :: cs)).isSome || containsCI pat cs

/-- Whether a case-sensitive occurrence of the pattern appears anywhere
in the text. -/
def containsLit (pat : Str) : Str → Bool
  | [] => litAt pat []
  | c :: cs => litAt pat (c :: cs) || containsLit pat cs

/-! ## The response-sectioning parser (app.js `parseAnalysisOutput`) -/

/-- The literal `\n\n` alternative of the summary regex's lookahead. -/
def nnPat : Str := ['\n', '\n']

/-- The literal `Gaps:` alternative (the summary regex has no `/i` flag,
so this is case-sensitive). -/
def gapsColon : Str := ['G', 'a', 'p', 's', ':']

/-- The literal `Recommendations:` alternative of the summary regex. -/
def recsColon : Str :=
  ['R', 'e', 'c', 'o', 'm', 'm', 'e', 'n', 'd', 'a', 't', 'i', 'o', 'n', 's', ':']

/-- The mandatory part `Gap` of the gaps regex `/Gaps?:?/i`, lower-cased. -/
def gapPat : Str := ['g', 'a', 'p']

/-- The mandatory part `Recommendation` of `/Recommendations?:?/i`,
lower-cased. -/
def recPat : Str :=
  ['r', 'e', 'c', 'o', 'm', 'm', 'e', 'n', 'd', 'a', 't', 'i', 'o', 'n']

/-- Whether the lookahead `(?=\n\n|Gaps:|Recommendations:|$)` of the
summary regex `^(.*?)(?=\n\n|Gaps:|Recommendations:|$)/s` succeeds at the
head of the given suffix (the `$` alternative corresponds to the empty
suffix and is handled by the caller's recursion running out of text). -/
def summaryStop (s : Str) : Bool :=
  litAt nnPat s || litAt gapsColon s || litAt recsColon s

/-- Length of the text matched by the lazy group `(.*?)` of the summary
regex: the number of characters before the first position at which the
lookahead succeeds (the whole text when it never does, via `$`). -/
def summaryLen : Str → Nat
  | [] => 0
  | c :: cs => if summaryStop (c :: cs) then 0 else summaryLen cs + 1

/-- Consume the optional `s?`, the optional `:?` and the greedy `\s*`
that follow the mandatory part of the `/Gaps?:?\s*/i` and
`/Recommendations?:?\s*/i` markers (`s?` is case-insensitive). -/
def markerRest (s : Str) : Str :=
  let s1 := match s with
    | c :: cs => if c.toLower == 's' then cs else c :: cs
    | [] => []
  let s2 := match s1 with
    | c :: cs => if c == ':' then cs else c :: cs
    | [] => []
  s2.dropWhile jsWs

/-- The suffix of the text captured by the gaps regex
`/Gaps?:?\s*([\s\S]*?)(?=Recommendations?:|$)/i` before its lookahead is
applied: the regex matches at the leftmost case-insensitive occurrence of
`Gap` (the tail of the pattern always succeeds), and the capture starts
after `Gaps?:?\s*`.  `none` when `Gap` does not occur. -/
def gapsTail : Str → Option Str
  | [] => none
  | c :: cs =>
    match dropCI gapPat (c :: cs) with
    | some rest => some (markerRest rest)
    | none => gapsTail cs

/-- Whether the lookahead `(?=Recommendations?:|$)` of the gaps regex
succeeds at the head of the given suffix: `Recommendation`,
case-insensitively, then an optional `s`, then a mandatory `:`
(the `$` alternative is again the caller's recursion running out). -/
def recsAhead (s : Str) : Bool :=
  match dropCI recPat s with
  | none => false
  | some rest =>
    match rest with
    | ':' :: _ => true
    | c :: ':' :: _ => c.toLower == 's'
    | _ => false

/-- The text captured lazily by the gaps regex: everything up to the
first position where `(?=Recommendations?:|$)` succeeds. -/
def takeUntilRecs : Str → Str
  | [] => []
  | c :: cs => if recsAhead (c :: cs) then [] else c :: takeUntilRecs cs

/-- The suffix captured by the recommendations regex
`/Recommendations?:?\s*([\s\S]*?)$/i`: the leftmost case-insensitive
occurrence of `Recommendation`, with `Recommendations?:?\s*` consumed;
the lazy capture extends to `$`, i.e. to the end of the text. -/
def recsTail : Str → Option Str
  | [] => none
  | c :: cs =>
    match dropCI recPat (c :: cs) with
    | some rest => some (markerRest rest)
    | none => recsTail cs

/-- JavaScript `text.split(/\n/)`. -/
def splitLines : Str → List Str
  | [] => [[]]
  | c :: cs =>
    let r := splitLines cs
    if c == '\n' then [] :: r
    else
      match r with
      | [] => [[c]]
      | l :: ls => (c :: l) :: ls

/-- JavaScript `line.replace(/^[-•*]\s*/, '')`: strip one leading bullet
glyph together with the whitespace that follows it (the regex matches at
most once, at the start). -/
def stripBullet (l : Str) : Str :=
  match l with
  | c :: cs => if c == '-' || c == '•' || c == '*' then cs.dropWhile jsWs else c :: cs
  | [] => []

/-- The line post-processing shared by the gaps and recommendations
sections: `.split(/\n/).map(line => line.replace(/^[-•*]\s*/, '').trim())
.filter(line => line.length > 0)`. -/
def cleanLines (s : Str) : List Str :=
  ((splitLines s).map (fun l => jsTrim (stripBullet l))).filter (fun l => !l.isEmpty)

/-- The result record `{summary, gaps, recommendations}` of
`parseAnalysisOutput`. -/
structure Sections where
  summary : Str
  gaps : List Str
  recommendations : List Str
deriving DecidableEq

/-- Embedding of `parseAnalysisOutput` (app.js, lines 795-843).  The
guard `if (!text)` returns the empty record on the empty string (and on
`null`/`undefined`, see `parseAnalysisOutputOpt`). -/
def parseAnalysisOutput (text : Str) : Sections :=
  match text with
  | [] => ⟨[], [], []⟩
  | c :: cs =>
    let t := c :: cs
    { summary := jsTrim (t.take (summaryLen t))
      gaps :=
        match gapsTail t with
        | some rest => cleanLines (takeUntilRecs rest)
        | none => []
      recommendations :=
        match recsTail t with
        | some rest => cleanLines rest
        | none => [] }

/-- `parseAnalysisOutput` as called with a possibly absent argument: the
JavaScript guard `if (!text)` sends `null` and `undefined` (here `none`)
to the empty record. -/
def parseAnalysisOutputOpt : Option Str → Sections
  | none => ⟨[], [], []⟩
  | some t => parseAnalysisOutput t

/-! ## Access-credential resolution (server.js `getApiKey`) -/

/-- JavaScript truthiness of an optional string: `undefined`/`null`
(here `none`) and the empty string are falsy. -/
def truthy : Option String → Bool
  | none => false
  | some s => !s.isEmpty

/-- The credential sources visible to one request: the server-side
`API_KEY` environment value, the `x-api-key` header and the `api_key`
query parameter. -/
structure ReqAuth where
  serverKey : Option String
  headerKey : Option String
  queryKey : Option String
deriving DecidableEq

/-- Embedding of `getApiKey` (server.js, lines 103-105):
`SERVER_API_KEY || req.headers['x-api-key'] || req.query.api_key || null`,
with JavaScript `||` short-circuiting on truthiness. -/
def getApiKey (r : ReqAuth) : Option String :=
  if truthy r.serverKey then r.serverKey
  else if truthy r.headerKey then r.headerKey
  else if truthy r.queryKey then r.queryKey
  else none

/-! ## The upload relay (server.js `fileFilter` and `POST /api/upload-file`) -/

/-- The `req.file` record produced by multer. -/
structure FileInfo where
  originalname : String
  mimetype : String
  size : Nat
  path : String
deriving DecidableEq

/-- The `allowedMimes` list of the multer `fileFilter`
(server.js, lines 46-53). -/
def allowedMimes : List String :=
  ["text/plain", "application/pdf", "application/msword",
   "application/vnd.openxmlformats-officedocument.wordprocessingml.document",
   "text/markdown", "application/json"]

/-- Outcome of the one upstream file-storage call made by the handler. -/
inductive UpstreamResult
  | ok (filePath : String)
  | fail (details : String)
deriving DecidableEq

/-- The request-scoped local file system, reduced to what the handler
touches: whether the multer temporary file currently exists, and how many
times `fs.unlinkSync` has been applied to it. -/
structure FsState where
  tempExists : Bool
  unlinkCount : Nat
deriving DecidableEq

/-- `fs.unlinkSync(req.file.path)`. -/
def unlinkSync (fs : FsState) : FsState :=
  { tempExists := false, unlinkCount := fs.unlinkCount + 1 }

/-- `fs.existsSync(req.file.path)`. -/
def existsSync (fs : FsState) : Bool := fs.tempExists

/-- What the upload relay answered, and the credential it used on the
upstream storage call (`none` when no upstream call was made). -/
structure UploadResp where
  status : Nat
  upstreamKey : Option String
deriving DecidableEq

/-- Embedding of the `POST /api/upload-file` handler body
(server.js, lines 108-169), entered after multer has stored the file (or
with `req.file` absent).  The `UpstreamResult` argument is the outcome
`await axios.post(...)` would produce if reached. -/
def uploadHandler (auth : ReqAuth) (file : Option FileInfo)
    (upstream : UpstreamResult) (fs0 : FsState) : UploadResp × FsState :=
  match file with
  | none => (⟨400, none⟩, fs0)
  | some _ =>
    match getApiKey auth with
    | none => (⟨401, none⟩, unlinkSync fs0)
    | some k =>
      match upstream with
      | .ok _ => (⟨200, some k⟩, unlinkSync fs0)
      | .fail _ =>
        -- catch block: `if (req.file && fs.existsSync(req.file.path))`
        (⟨500, some k⟩, if existsSync fs0 then unlinkSync fs0 else fs0)

/-- Embedding of the whole `POST /api/upload-file` pipeline: the multer
stage runs `fileFilter` before writing anything to disk; a rejected file
type makes multer pass the error to `next(err)`, and — the app installs
no error-handling middleware — Express's default error handler answers
with status 500 and the route handler never runs.  An accepted file is
stored (`tempExists = true`) before the handler starts. -/
def uploadPipeline (auth : ReqAuth) (file : Option FileInfo)
    (upstream : UpstreamResult) : UploadResp × FsState :=
  match file with
  | none => uploadHandler auth none upstream ⟨false, 0⟩
  | some f =>
    if allowedMimes.contains f.mimetype then
      uploadHandler auth (some f) upstream ⟨true, 0⟩
    else
      (⟨500, none⟩, ⟨false, 0⟩)

/-! ## Validation prefix of `POST /api/analyze` (server.js, lines 172-192) -/

/-- One analyze request, as read by the validation prefix of the
handler. -/
structure AnalyzeReq where
  auth : ReqAuth
  input : Option String
  streamFlag : Bool
deriving DecidableEq

/-- What the validation prefix decided: an immediate JSON rejection, or
proceeding to the upstream flow call with the resolved credential. -/
inductive AnalyzeDecision
  | reject (status : Nat)
  | run (apiKey : String) (streaming : Bool)
deriving DecidableEq

/-- Embedding of the validation prefix of `POST /api/analyze`: the
credential check (`401` when `getApiKey` is null) runs first, then the
`input_value` check (`400` when absent or empty); only then is the
Langflow client used. -/
def analyzeValidate (r : AnalyzeReq) : AnalyzeDecision :=
  match getApiKey r.auth with
  | none => .reject 401
  | some k => if truthy r.input then .run k r.streamFlag else .reject 400

/-- Whether the handler reaches the upstream flow call. -/
def analyzeUpstreamCalled (r : AnalyzeReq) : Bool :=
  match analyzeValidate r with
  | .run _ _ => true
  | .reject _ => false

/-! ## The monitor relay (server.js `GET /api/monitor/flow/:flowId`) -/

/-- Embedding of the monitor handler's credential use: `401` with no
upstream call when `getApiKey` is null, otherwise one upstream GET with
the resolved credential (`200` on success, `500` on failure). -/
def monitorHandler (auth : ReqAuth) (upstream : UpstreamResult) :
    Nat × Option String :=
  match getApiKey auth with
  | none => (401, none)
  | some k =>
    match upstream with
    | .ok _ => (200, some k)
    | .fail _ => (500, some k)

/-! ## The streaming relay of `POST /api/analyze` (server.js, lines 239-349) -/

/-- Events yielded by the upstream Langflow stream iterator.  The loop
body inspects `event.event` and ignores any other kind. -/
inductive UpEvent
  | addMessage (data : String)
  | token (chunk : String)
  | endEv (data : String)
  | other (name : String) (data : String)
deriving DecidableEq

/-- One atomic step of the streaming request: the 30-second
`setInterval` callback firing, the upstream iterator yielding an event,
the iterator finishing without an `end` event, or the iterator
throwing. -/
inductive StreamStep
  | tick
  | up (e : UpEvent)
  | upEof
  | upFail (msg : String)
deriving DecidableEq

/-- The newline-delimited JSON events written to the response stream. -/
inductive OutEvent
  | start
  | keepalive
  | addMessage (data : String)
  | token (chunk : String)
  | endEv (data : String)
  | error (msg : String)
deriving DecidableEq

/-- The terminal event kinds of the output stream. -/
def OutEvent.isTerminal : OutEvent → Bool
  | .endEv _ => true
  | .error _ => true
  | _ => false

/-- Request-scoped relay state: whether the `for await` loop is still
consuming upstream events, whether `keepAliveInterval` is still armed,
and the `fullResponse` accumulator. -/
structure RelayState where
  streamOpen : Bool
  timerOn : Bool
  acc : String
deriving DecidableEq

/-- State at the start of the streaming branch: the `start` event has
been written, the interval timer armed, the accumulator empty. -/
def relayInit : RelayState := ⟨true, true, ""⟩

/-- One atomic step of the streaming branch.  A timer tick writes a
`keepalive` iff the interval has not been cleared.  While the loop is
open, an upstream `add_message`/`token` event is forwarded, an `end`
event writes the terminal `end`, breaks the loop and clears the interval
(`clearInterval` then `res.end()`), a silent iterator finish clears the
interval and ends the response without a terminal event, and a thrown
error clears the interval and writes one `error` event (the response is
still writable, `!res.writableEnded`).  After the loop has closed the
response, a late throw writes nothing (`res.writableEnded` is true). -/
def relayStep (s : RelayState) : StreamStep → RelayState × List OutEvent
  | .tick => (s, if s.timerOn then [.keepalive] else [])
  | .up e =>
    if s.streamOpen then
      match e with
      | .addMessage d => (s, [.addMessage d])
      | .token c => ({ s with acc := s.acc ++ c }, [.token c])
      | .endEv d => (⟨false, false, d⟩, [.endEv d])
      | .other _ _ => (s, [])
    else (s, [])
  | .upEof =>
    if s.streamOpen then ({ s with streamOpen := false, timerOn := false }, [])
    else (s, [])
  | .upFail m =>
    if s.streamOpen then ({ s with streamOpen := false, timerOn := false }, [.error m])
    else (s, [])

/-- Output of running the relay from a given state over a step
sequence. -/
def relayOut (s : RelayState) : List StreamStep → List OutEvent
  | [] => []
  | a :: as =>
    let p := relayStep s a
    p.2 ++ relayOut p.1 as

/-- Final state after running the relay over a step sequence. -/
def relayEnd (s : RelayState) : List StreamStep → RelayState
  | [] => s
  | a :: as => relayEnd (relayStep s a).1 as

/-- The full output of one streaming run: the initial `start` event
followed by the events produced by the step sequence. -/
def relayRun (steps : List StreamStep) : List OutEvent :=
  .start :: relayOut relayInit steps

/-- Number of terminal (`end` or `error`) events in an output trace. -/
def terminalCount (l : List OutEvent) : Nat :=
  (l.filter OutEvent.isTerminal).length

/-- The output events strictly after the first terminal event (empty
when there is none). -/
def afterFirstTerminal : List OutEvent → List OutEvent
  | [] => []
  | e :: es => if e.isTerminal then es else afterFirstTerminal es

/-- The output events strictly before the first terminal event (the
whole trace when there is none). -/
def beforeFirstTerminal : List OutEvent → List OutEvent
  | [] => []
  | e :: es => if e.isTerminal then [] else e :: beforeFirstTerminal es

/-- Whether a step closes the `for await` loop. -/
def closesStream : StreamStep → Bool
  | .up (.endEv _) => true
  | .upEof => true
  | .upFail _ => true
  | _ => false

/-- Whether a step makes the relay write a terminal event. -/
def signalsTerminal : StreamStep → Bool
  | .up (.endEv _) => true
  | .upFail _ => true
  | _ => false

/-- A completed streaming run per the upstream contract recorded in the
source (the Langflow stream ends with an `end` event, or throws): the
step sequence contains a closing step, and the first one is an `end`
event or a thrown error rather than a silent iterator finish. -/
def properRun : List StreamStep → Bool
  | [] => false
  | a :: as => if closesStream a then signalsTerminal a else properRun as

/-- The steps strictly before the first closing step. -/
def preClose : List StreamStep → List StreamStep
  | [] => []
  | a :: as => if closesStream a then [] else a :: preClose as

/-! ### Real-time heartbeat model -/

/-- A step with the instant (in seconds since the request started) at
which it happens. -/
structure TimedStep where
  t : Nat
  act : StreamStep
deriving DecidableEq

/-- The instant of the first closing step. -/
def closeTime : List TimedStep → Option Nat
  | [] => none
  | a :: as => if closesStream a.act then some a.t else closeTime as

/-- The timed steps strictly before the first closing step. -/
def preCloseT : List TimedStep → List TimedStep
  | [] => []
  | a :: as => if closesStream a.act then [] else a :: preCloseT as

/-- Faithfulness of a timed step sequence to `setInterval(.., 30000)`:
until the stream closes, the heartbeat callback runs every 30 seconds,
so for every full 30-second interval that elapses strictly before the
closing instant, a tick step occurs before the closing step. -/
def TimerFaithful (l : List TimedStep) : Prop :=
  ∀ k T, 0 < k → closeTime l = some T → 30 * k < T →
    ∃ a, a ∈ preCloseT l ∧ a.act = StreamStep.tick ∧ a.t = 30 * k

/-- A timed run, projected to the relay machine. -/
def relayRunT (l : List TimedStep) : List OutEvent :=
  relayRun (l.map TimedStep.act)

/-! ## Specification-side formulations for the parser claims -/

/-- Index of the first case-sensitive occurrence of the pattern
(the length of the text when there is none). -/
def firstOcc (pat : Str) : Str → Nat
  | [] => 0
  | c :: cs => if litAt pat (c :: cs) then 0 else firstOcc pat cs + 1

/-- The summary-cut criterion as worded by claim C5: the first blank
line or the first CASE-INSENSITIVE occurrence of `Gaps:` or
`Recommendations:`.  Stated from the claim's words, for comparison with
the code's `summaryStop` (whose regex carries no `/i` flag). -/
def claimSummaryStop (s : Str) : Bool :=
  litAt nnPat s
  || (dropCI ['g', 'a', 'p', 's', ':'] s).isSome
  || (dropCI ['r', 'e', 'c', 'o', 'm', 'm', 'e', 'n', 'd', 'a', 't', 'i', 'o', 'n', 's', ':'] s).isSome

/-- Prefix length up to the claim-C5 cut. -/
def claimSummaryLen : Str → Nat
  | [] => 0
  | c :: cs => if claimSummaryStop (c :: cs) then 0 else claimSummaryLen cs + 1

/-- The summary as worded by claim C5: prefix up to the case-insensitive
cut, trimmed. -/
def claimSummary (t : Str) : Str := jsTrim (t.take (claimSummaryLen t))

/-- The leading-bullet test used by claim C10's wording. -/
def leadingBullet (s : Str) : Bool :=
  match s with
  | c :: _ => c == '-' || c == '•' || c == '*'
  | [] => false

/-! ## Helper lemmas about the streaming relay -/

@[simp] theorem closes_tick : closesStream .tick = false := rfl
@[simp] theorem closes_addMessage (d : String) :
    closesStream (.up (.addMessage d)) = false := rfl
@[simp] theorem closes_token (c : String) :
    closesStream (.up (.token c)) = false := rfl
@[simp] theorem closes_other (n d : String) :
    closesStream (.up (.other n d)) = false := rfl
@[simp] theorem closes_endEv (d : String) :
    closesStream (.up (.endEv d)) = true := rfl
@[simp] theorem closes_upEof : closesStream .upEof = true := rfl
@[simp] theorem closes_upFail (m : String) : closesStream (.upFail m) = true := rfl

@[simp] theorem signals_endEv (d : String) :
    signalsTerminal (.up (.endEv d)) = true := rfl
@[simp] theorem signals_upEof : signalsTerminal .upEof = false := rfl
@[simp] theorem signals_upFail (m : String) :
    signalsTerminal (.upFail m) = true := rfl

@[simp] theorem isTerminal_start : OutEvent.isTerminal .start = false := rfl
@[simp] theorem isTerminal_keepalive : OutEvent.isTerminal .keepalive = false := rfl
@[simp] theorem isTerminal_addMessage (d : String) :
    OutEvent.isTerminal (.addMessage d) = false := rfl
@[simp] theorem isTerminal_token (c : String) :
    OutEvent.isTerminal (.token c) = false := rfl
@[simp] theorem isTerminal_endEv (d : String) :
    OutEvent.isTerminal (.endEv d) = true := rfl
@[simp] theorem isTerminal_error (m : String) :
    OutEvent.isTerminal (.error m) = true := rfl

theorem terminalCount_cons (e : OutEvent) (r : List OutEvent) :
    terminalCount (e :: r) = (if e.isTerminal then 1 else 0) + terminalCount r := by
  simp only [terminalCount, List.filter_cons]
  split <;> simp [Nat.add_comm]

theorem afterFirstTerminal_cons (e : OutEvent) (r : List OutEvent) :
    afterFirstTerminal (e :: r)
    = if e.isTerminal then r else afterFirstTerminal r := rfl

theorem beforeFirstTerminal_cons (e : OutEvent) (r : List OutEvent) :
    beforeFirstTerminal (e :: r)
    = if e.isTerminal then [] else e :: beforeFirstTerminal r := rfl

/-- Once the loop has been left and the interval cleared, no step
changes the state or writes anything. -/
theorem relayStep_dead (s : RelayState) (hs : s.streamOpen = false)
    (ht : s.timerOn = false) (a : StreamStep) : relayStep s a = (s, []) := by
  cases a with
  | tick => simp [relayStep, ht]
  | up e => simp [relayStep, hs]
  | upEof => simp [relayStep, hs]
  | upFail m => simp [relayStep, hs]

/-- A dead request writes nothing more. -/
theorem relayOut_dead (l : List StreamStep) :
    ∀ s : RelayState, s.streamOpen = false → s.timerOn = false →
      relayOut s l = [] := by
  induction l with
  | nil => intro s _ _; rfl
  | cons a as ih =>
    intro s hs ht
    simp only [relayOut, relayStep_dead s hs ht]
    simpa using ih s hs ht

/-- A dead request keeps its state. -/
theorem relayEnd_dead (l : List StreamStep) :
    ∀ s : RelayState, s.streamOpen = false → s.timerOn = false →
      relayEnd s l = s := by
  induction l with
  | nil => intro s _ _; rfl
  | cons a as ih =>
    intro s hs ht
    simp only [relayEnd, relayStep_dead s hs ht]
    exact ih s hs ht

/-- While the loop is open and the interval armed, the number of
terminal events written is one when the run closes with an upstream
`end` or a thrown error, and zero otherwise. -/
theorem relayOut_tc (l : List StreamStep) :
    ∀ s : RelayState, s.streamOpen = true → s.timerOn = true →
      terminalCount (relayOut s l) = (if properRun l then 1 else 0) := by
  induction l with
  | nil => intro s _ _; rfl
  | cons a as ih =>
    intro s hs ht
    cases a with
    | tick =>
      simp [relayOut, relayStep, ht, terminalCount_cons, properRun, ih s hs ht]
    | up e =>
      cases e with
      | addMessage d =>
        simp [relayOut, relayStep, hs, terminalCount_cons, properRun, ih s hs ht]
      | token c =>
        simp only [relayOut, relayStep, hs, if_true, List.singleton_append,
          terminalCount_cons, isTerminal_token, if_false, properRun,
          closes_token, Bool.false_eq_true, Nat.zero_add]
        exact ih _ rfl ht
      | other n d =>
        simp [relayOut, relayStep, hs, properRun, ih s hs ht]
      | endEv d =>
        simp [relayOut, relayStep, hs, terminalCount_cons, properRun,
          relayOut_dead as ⟨false, false, d⟩ rfl rfl, terminalCount]
    | upEof =>
      simp [relayOut, relayStep, hs, properRun,
        relayOut_dead as ⟨false, false, s.acc⟩ rfl rfl, terminalCount]
    | upFail m =>
      simp [relayOut, relayStep, hs, terminalCount_cons, properRun,
        relayOut_dead as ⟨false, false, s.acc⟩ rfl rfl, terminalCount]

/-- While the loop is open, nothing at all is written after the first
terminal event. -/
theorem relayOut_after (l : List StreamStep) :
    ∀ s : RelayState, s.streamOpen = true → s.timerOn = true →
      afterFirstTerminal (relayOut s l) = [] := by
  induction l with
  | nil => intro s _ _; rfl
  | cons a as ih =>
    intro s hs ht
    cases a with
    | tick =>
      simp [relayOut, relayStep, ht, afterFirstTerminal_cons, ih s hs ht]
    | up e =>
      cases e with
      | addMessage d =>
        simp [relayOut, relayStep, hs, afterFirstTerminal_cons, ih s hs ht]
      | token c =>
        simp only [relayOut, relayStep, hs, if_true, List.singleton_append,
          afterFirstTerminal_cons, isTerminal_token, Bool.false_eq_true, if_false]
        exact ih _ rfl ht
      | other n d =>
        simp [relayOut, relayStep, hs, ih s hs ht]
      | endEv d =>
        simp [relayOut, relayStep, hs, afterFirstTerminal_cons,
          relayOut_dead as ⟨false, false, d⟩ rfl rfl]
    | upEof =>
      simp [relayOut, relayStep, hs,
        relayOut_dead as ⟨false, false, s.acc⟩ rfl rfl, afterFirstTerminal]
    | upFail m =>
      simp [relayOut, relayStep, hs, afterFirstTerminal_cons,
        relayOut_dead as ⟨false, false, s.acc⟩ rfl rfl]

/-- While the loop is open, a heartbeat tick that fires before the
stream closes puts a `keepalive` event into the output strictly before
any terminal event. -/
theorem relayOut_keepalive (l : List StreamStep) :
    ∀ s : RelayState, s.streamOpen = true → s.timerOn = true →
      StreamStep.tick ∈ preClose l →
      OutEvent.keepalive ∈ beforeFirstTerminal (relayOut s l) := by
  induction l with
  | nil => intro s _ _ hm; simp [preClose] at hm
  | cons a as ih =>
    intro s hs ht hm
    cases a with
    | tick =>
      simp [relayOut, relayStep, ht, beforeFirstTerminal_cons]
    | up e =>
      cases e with
      | addMessage d =>
        simp only [preClose, closes_addMessage, Bool.false_eq_true, if_false,
          List.mem_cons] at hm
        rcases hm with hm | hm
        · exact absurd hm (by simp)
        · simp only [relayOut, relayStep, hs, if_true, List.singleton_append,
            beforeFirstTerminal_cons, isTerminal_addMessage, Bool.false_eq_true,
            if_false, List.mem_cons]
          exact Or.inr (ih s hs ht hm)
      | token c =>
        simp only [preClose, closes_token, Bool.false_eq_true, if_false,
          List.mem_cons] at hm
        rcases hm with hm | hm
        · exact absurd hm (by simp)
        · simp only [relayOut, relayStep, hs, if_true, List.singleton_append,
            beforeFirstTerminal_cons, isTerminal_token, Bool.false_eq_true,
            if_false, List.mem_cons]
          exact Or.inr (ih _ rfl ht hm)
      | other n d =>
        simp only [preClose, closes_other, Bool.false_eq_true, if_false,
          List.mem_cons] at hm
        rcases hm with hm | hm
        · exact absurd hm (by simp)
        · simp only [relayOut, relayStep, hs, if_true, List.nil_append]
          exact ih s hs ht hm
      | endEv d => simp [preClose] at hm
    | upEof => simp [preClose] at hm
    | upFail m => simp [preClose] at hm

/-- No step rearms a cleared interval timer. -/
theorem relayEnd_timer_off (l : List StreamStep) :
    ∀ s : RelayState, s.timerOn = false → (relayEnd s l).timerOn = false := by
  induction l with
  | nil => intro s ht; exact ht
  | cons a as ih =>
    intro s ht
    cases a with
    | tick => simpa [relayEnd, relayStep] using ih s ht
    | up e =>
      cases hs : s.streamOpen with
      | false => simpa [relayEnd, relayStep, hs] using ih s ht
      | true =>
        cases e with
        | addMessage d => simpa [relayEnd, relayStep, hs] using ih s ht
        | token c =>
          simp only [relayEnd, relayStep, hs, if_true]
          exact ih _ ht
        | other n d => simpa [relayEnd, relayStep, hs] using ih s ht
        | endEv d =>
          simp only [relayEnd, relayStep, hs, if_true]
          exact ih _ rfl
    | upEof =>
      cases hs : s.streamOpen with
      | false => simpa [relayEnd, relayStep, hs] using ih s ht
      | true =>
        simp only [relayEnd, relayStep, hs, if_true]
        exact ih _ rfl
    | upFail m =>
      cases hs : s.streamOpen with
      | false => simpa [relayEnd, relayStep, hs] using ih s ht
      | true =>
        simp only [relayEnd, relayStep, hs, if_true]
        exact ih _ rfl

/-- On every run containing a closing step (`ended`, silent finish or
`errored`), the interval timer is cleared by the end of the run; the
invariant `timerOn → streamOpen` holds for every reachable state. -/
theorem relayEnd_timer (l : List StreamStep) :
    ∀ s : RelayState, (s.timerOn = true → s.streamOpen = true) →
      (∃ a ∈ l, closesStream a = true) → (relayEnd s l).timerOn = false := by
  induction l with
  | nil => intro s _ h; simp at h
  | cons a as ih =>
    intro s hinv h
    cases a with
    | tick =>
      simp only [relayEnd, relayStep]
      refine ih s hinv ?_
      rcases h with ⟨b, hb, hcl⟩
      rcases List.mem_cons.mp hb with rfl | hb
      · simp at hcl
      · exact ⟨b, hb, hcl⟩
    | up e =>
      cases hs : s.streamOpen with
      | false =>
        have ht : s.timerOn = false := by
          cases htt : s.timerOn
          · rfl
          · rw [hinv htt] at hs; exact absurd hs (by simp)
        rw [relayEnd, relayStep_dead s hs ht]
        exact relayEnd_timer_off as s ht
      | true =>
        cases e with
        | addMessage d =>
          simp only [relayEnd, relayStep, hs, if_true]
          refine ih s hinv ?_
          rcases h with ⟨b, hb, hcl⟩
          rcases List.mem_cons.mp hb with rfl | hb
          · simp at hcl
          · exact ⟨b, hb, hcl⟩
        | token c =>
          simp only [relayEnd, relayStep, hs, if_true]
          refine ih _ (fun _ => rfl) ?_
          rcases h with ⟨b, hb, hcl⟩
          rcases List.mem_cons.mp hb with rfl | hb
          · simp at hcl
          · exact ⟨b, hb, hcl⟩
        | other n d =>
          simp only [relayEnd, relayStep, hs, if_true]
          refine ih s hinv ?_
          rcases h with ⟨b, hb, hcl⟩
          rcases List.mem_cons.mp hb with rfl | hb
          · simp at hcl
          · exact ⟨b, hb, hcl⟩
        | endEv d =>
          simp only [relayEnd, relayStep, hs, if_true]
          exact relayEnd_timer_off as _ rfl
    | upEof =>
      cases hs : s.streamOpen with
      | false =>
        have ht : s.timerOn = false := by
          cases htt : s.timerOn
          · rfl
          · rw [hinv htt] at hs; exact absurd hs (by simp)
        rw [relayEnd, relayStep_dead s hs ht]
        exact relayEnd_timer_off as s ht
      | true =>
        simp only [relayEnd, relayStep, hs, if_true]
        exact relayEnd_timer_off as _ rfl
    | upFail m =>
      cases hs : s.streamOpen with
      | false =>
        have ht : s.timerOn = false := by
          cases htt : s.timerOn
          · rfl
          · rw [hinv htt] at hs; exact absurd hs (by simp)
        rw [relayEnd, relayStep_dead s hs ht]
        exact relayEnd_timer_off as s ht
      | true =>
        simp only [relayEnd, relayStep, hs, if_true]
        exact relayEnd_timer_off as _ rfl

/-- Projecting timed steps to the machine commutes with truncation at
the first closing step. -/
theorem preCloseT_map (l : List TimedStep) :
    (preCloseT l).map TimedStep.act = preClose (l.map TimedStep.act) := by
  induction l with
  | nil => rfl
  | cons a as ih =>
    simp only [preCloseT, List.map_cons, preClose]
    split
    · rfl
    · simpa using ih

/-- A run with a closing instant contains a closing step. -/
theorem closeTime_mem (l : List TimedStep) :
    ∀ T, closeTime l = some T →
      ∃ a ∈ l.map TimedStep.act, closesStream a = true := by
  induction l with
  | nil => intro T h; simp [closeTime] at h
  | cons a as ih =>
    intro T h
    simp only [closeTime] at h
    by_cases hc : closesStream a.act = true
    · exact ⟨a.act, by simp, hc⟩
    · rw [if_neg (by simpa using hc)] at h
      obtain ⟨b, hb, hcl⟩ := ih T h
      exact ⟨b, by simp only [List.map_cons, List.mem_cons]; exact Or.inr hb, hcl⟩

/-! ## Helper lemmas about the parser -/

/-- The code's summary cut equals the minimum of the first occurrences
of the three (case-sensitive) lookahead alternatives. -/
theorem summaryLen_eq_min (t : Str) :
    summaryLen t
    = min (firstOcc nnPat t) (min (firstOcc gapsColon t) (firstOcc recsColon t)) := by
  induction t with
  | nil => rfl
  | cons c cs ih =>
    cases hnn : litAt nnPat (c :: cs) <;>
      cases hg : litAt gapsColon (c :: cs) <;>
        cases hr : litAt recsColon (c :: cs) <;>
          simp [summaryLen, summaryStop, firstOcc, hnn, hg, hr, ih] <;>
          omega

/-- A case-sensitive literal match guarantees a case-insensitive match
of the lower-cased truncation of the same literal. -/
theorem litAt_isSome_dropCI (pat : Str) :
    ∀ lit s : Str, (lit.take pat.length).map Char.toLower = pat →
      litAt lit s = true → (dropCI pat s).isSome = true := by
  induction pat with
  | nil => intro lit s _ _; rfl
  | cons p ps ih =>
    intro lit s hp hl
    match lit, s with
    | [], _ => simp at hp
    | l :: ls, [] => simp [litAt] at hl
    | l :: ls, c :: cs =>
      simp only [List.length_cons, List.take_succ_cons, List.map_cons,
        List.cons.injEq] at hp
      simp only [litAt, Bool.and_eq_true, beq_iff_eq] at hl
      obtain ⟨hp1, hp2⟩ := hp
      obtain ⟨hc, hrest⟩ := hl
      simp only [dropCI, hc, hp1, beq_self_eq_true, if_true]
      exact ih ls cs hp2 hrest

/-- Without a case-insensitive occurrence of `Gap`, the gaps regex does
not match. -/
theorem gapsTail_none (t : Str) (h : containsCI gapPat t = false) :
    gapsTail t = none := by
  induction t with
  | nil => rfl
  | cons c cs ih =>
    simp only [containsCI, Bool.or_eq_false_iff] at h
    cases hd : dropCI gapPat (c :: cs) with
    | some r => rw [hd] at h; simp at h
    | none => simpa [gapsTail, hd] using ih h.2

/-- Without a case-insensitive occurrence of `Recommendation`, the
recommendations regex does not match. -/
theorem recsTail_none (t : Str) (h : containsCI recPat t = false) :
    recsTail t = none := by
  induction t with
  | nil => rfl
  | cons c cs ih =>
    simp only [containsCI, Bool.or_eq_false_iff] at h
    cases hd : dropCI recPat (c :: cs) with
    | some r => rw [hd] at h; simp at h
    | none => simpa [recsTail, hd] using ih h.2

/-- Without a blank line, a case-insensitive `Gap` or a case-insensitive
`Recommendation`, the summary lookahead never fires and the lazy group
captures the whole text. -/
theorem summaryLen_full (t : Str)
    (hn : containsLit nnPat t = false)
    (hg : containsCI gapPat t = false)
    (hr : containsCI recPat t = false) :
    summaryLen t = t.length := by
  induction t with
  | nil => rfl
  | cons c cs ih =>
    simp only [containsLit, Bool.or_eq_false_iff] at hn
    simp only [containsCI, Bool.or_eq_false_iff] at hg hr
    have hstop : summaryStop (c :: cs) = false := by
      simp only [summaryStop, Bool.or_eq_false_iff]
      refine ⟨⟨hn.1, ?_⟩, ?_⟩
      · cases hl : litAt gapsColon (c :: cs)
        · rfl
        · have := litAt_isSome_dropCI gapPat gapsColon (c :: cs) (by decide) hl
          rw [hg.1] at this; exact absurd this (by simp)
      · cases hl : litAt recsColon (c :: cs)
        · rfl
        · have := litAt_isSome_dropCI recPat recsColon (c :: cs) (by decide) hl
          rw [hr.1] at this; exact absurd this (by simp)
    simp [summaryLen, hstop, ih hn.2 hg.2 hr.2]

/-- `jsTrimEnd` is idempotent. -/
theorem jsTrimEnd_idem (l : Str) : jsTrimEnd (jsTrimEnd l) = jsTrimEnd l := by
  induction l with
  | nil => rfl
  | cons c cs ih =>
    simp only [jsTrimEnd]
    split
    · rfl
    · rename_i h
      simp only [jsTrimEnd, ih]
      rw [if_neg h]

/-- After dropping leading whitespace, the head (if any) is not
whitespace. -/
theorem dropWhile_jsWs_head (l : Str) :
    l.dropWhile jsWs = [] ∨
      ∃ c cs, l.dropWhile jsWs = c :: cs ∧ jsWs c = false := by
  induction l with
  | nil => exact Or.inl rfl
  | cons c cs ih =>
    by_cases h : jsWs c = true
    · simpa [List.dropWhile, h] using ih
    · exact Or.inr ⟨c, cs, by simp [List.dropWhile, h], by simpa using h⟩

/-- Trimming the end cannot create leading whitespace. -/
theorem dropWhile_jsTrimEnd (l : Str) :
    (jsTrimEnd (l.dropWhile jsWs)).dropWhile jsWs
    = jsTrimEnd (l.dropWhile jsWs) := by
  rcases dropWhile_jsWs_head l with h | ⟨c, cs, h, hc⟩
  · rw [h]; rfl
  · rw [h]
    show (jsTrimEnd (c :: cs)).dropWhile jsWs = jsTrimEnd (c :: cs)
    simp only [jsTrimEnd]
    split
    · rfl
    · simp [List.dropWhile, hc]

/-- JavaScript `trim` is idempotent. -/
theorem jsTrim_idem (l : Str) : jsTrim (jsTrim l) = jsTrim l := by
  unfold jsTrim
  rw [dropWhile_jsTrimEnd, jsTrimEnd_idem]

/-- Every line surviving the shared post-processing is nonempty and
fully trimmed. -/
theorem cleanLines_mem (s x : Str) (hx : x ∈ cleanLines s) :
    x ≠ [] ∧ jsTrim x = x := by
  unfold cleanLines at hx
  rw [List.mem_filter] at hx
  obtain ⟨hmem, hne⟩ := hx
  rw [List.mem_map] at hmem
  obtain ⟨l, -, rfl⟩ := hmem
  refine ⟨?_, jsTrim_idem _⟩
  intro h
  rw [h] at hne
  simp at hne

/-! ## The claims -/

/-- C1: for every streaming-mode run of the analyze relay in which the
upstream stream completes per its contract (it yields an `end` event or
throws — `properRun`), the number of terminal events (`end` plus
`error`) written to the output stream is exactly one, and no event of
any type (including `keepalive`, `token`, `add_message`) is written
after that terminal event. -/
theorem claim_C1 (steps : List StreamStep) (h : properRun steps = true) :
    terminalCount (relayRun steps) = 1
    ∧ afterFirstTerminal (relayRun steps) = [] := by
  constructor
  · have htc := relayOut_tc steps relayInit rfl rfl
    rw [h] at htc
    simpa [relayRun, terminalCount_cons] using htc
  · have hac := relayOut_after steps relayInit rfl rfl
    simpa [relayRun, afterFirstTerminal_cons] using hac

/-- Witness for C1: a concrete run with a tick, a token and the
upstream `end` event. -/
theorem claim_C1_witness :
    terminalCount (relayRun [.tick, .up (.token "a"), .up (.endEv "a")]) = 1
    ∧ afterFirstTerminal (relayRun [.tick, .up (.token "a"), .up (.endEv "a")]) = [] :=
  claim_C1 _ (by decide)

/-- C2: for every request to the upload relay in which a file was
written to local temporary storage (multer accepted the field and the
MIME type passed the filter), the local temporary file is deleted
exactly once before the handler returns, on every exit path:
missing-credential rejection, upstream success and upstream failure. -/
theorem claim_C2 (auth : ReqAuth) (f : FileInfo) (up : UpstreamResult)
    (h : allowedMimes.contains f.mimetype = true) :
    (uploadPipeline auth (some f) up).2.unlinkCount = 1
    ∧ (uploadPipeline auth (some f) up).2.tempExists = false := by
  simp only [uploadPipeline, h, if_true]
  cases hk : getApiKey auth with
  | none => simp [uploadHandler, hk, unlinkSync]
  | some k => cases up <;> simp [uploadHandler, hk, unlinkSync, existsSync]

/-- Witness for C2: a text file relayed with no credential anywhere
(the 401 path) still deletes the temporary file exactly once. -/
theorem claim_C2_witness :
    (uploadPipeline ⟨none, none, none⟩
        (some ⟨"req.txt", "text/plain", 5, "uploads/1-req.txt"⟩)
        (.fail "network")).2.unlinkCount = 1
    ∧ (uploadPipeline ⟨none, none, none⟩
        (some ⟨"req.txt", "text/plain", 5, "uploads/1-req.txt"⟩)
        (.fail "network")).2.tempExists = false :=
  claim_C2 _ _ _ (by decide)

/-- C3: for every streaming-mode run whose heartbeat timer is faithful
to `setInterval(.., 30000)` and that closes later than one heartbeat
interval (30 time units), at least one `keepalive` event is written
before any terminal event; nothing at all (in particular no
`keepalive`) is written after the terminal event, and the interval
timer is cancelled by the end of the run on every exit path. -/
theorem claim_C3 (l : List TimedStep) (T : Nat) (hf : TimerFaithful l)
    (hc : closeTime l = some T) (hT : 30 < T) :
    OutEvent.keepalive ∈ beforeFirstTerminal (relayRunT l)
    ∧ afterFirstTerminal (relayRunT l) = []
    ∧ (relayEnd relayInit (l.map TimedStep.act)).timerOn = false := by
  obtain ⟨a, ha, hact, hat⟩ := hf 1 T (by omega) hc (by omega)
  refine ⟨?_, ?_, ?_⟩
  · have htick : StreamStep.tick ∈ preClose (l.map TimedStep.act) := by
      rw [← preCloseT_map]
      exact hact ▸ List.mem_map_of_mem TimedStep.act ha
    have hkp := relayOut_keepalive (l.map TimedStep.act) relayInit rfl rfl htick
    simpa [relayRunT, relayRun, beforeFirstTerminal_cons] using hkp
  · have hac := relayOut_after (l.map TimedStep.act) relayInit rfl rfl
    simpa [relayRunT, relayRun, afterFirstTerminal_cons] using hac
  · exact relayEnd_timer _ relayInit (fun _ => rfl) (closeTime_mem l T hc)

/-- Witness for C3: a run with the heartbeat at instant 30 and the
upstream `end` event at instant 45. -/
theorem claim_C3_witness :
    OutEvent.keepalive ∈ beforeFirstTerminal
      (relayRunT [⟨30, .tick⟩, ⟨40, .up (.token "x")⟩, ⟨45, .up (.endEv "x")⟩])
    ∧ afterFirstTerminal
        (relayRunT [⟨30, .tick⟩, ⟨40, .up (.token "x")⟩, ⟨45, .up (.endEv "x")⟩]) = []
    ∧ (relayEnd relayInit
        ([⟨30, .tick⟩, ⟨40, .up (.token "x")⟩,
          ⟨45, .up (.endEv "x")⟩].map TimedStep.act)).timerOn = false :=
  claim_C3 _ 45
    (by
      intro k T hk hc hT
      have hT45 : T = 45 := by
        have h45 : closeTime
            [⟨30, .tick⟩, ⟨40, .up (.token "x")⟩, ⟨45, .up (.endEv "x")⟩]
            = some 45 := rfl
        rw [h45] at hc
        exact (Option.some.inj hc).symm
      subst hT45
      have hk1 : k = 1 := by omega
      subst hk1
      exact ⟨⟨30, .tick⟩, by decide, rfl, by decide⟩)
    rfl (by omega)

/-- C4: the response-sectioning parser is a deterministic pure function
(equal input text always yields equal output), and on the worked input
of the specification it returns summary `Overview text`, gaps
`[Missing auth, No logging]` and recommendations
`[Add JWT, Add audit log]`. -/
theorem claim_C4 :
    (∀ s t : Str, s = t → parseAnalysisOutput s = parseAnalysisOutput t)
    ∧ parseAnalysisOutput
        "Overview text\n\nGaps:\n- Missing auth\n- No logging\nRecommendations:\n- Add JWT\n- Add audit log".toList
      = ⟨"Overview text".toList,
         ["Missing auth".toList, "No logging".toList],
         ["Add JWT".toList, "Add audit log".toList]⟩ :=
  ⟨fun _ _ h => by rw [h], by decide⟩

/-- Witness for C4: the determinism part applied at the worked input. -/
theorem claim_C4_witness :
    parseAnalysisOutput
      "Overview text\n\nGaps:\n- Missing auth\n- No logging\nRecommendations:\n- Add JWT\n- Add audit log".toList
    = parseAnalysisOutput
      "Overview text\n\nGaps:\n- Missing auth\n- No logging\nRecommendations:\n- Add JWT\n- Add audit log".toList :=
  claim_C4.1 _ _ rfl

/-- C5, counterexample: the claim reads the summary cut as the first
CASE-INSENSITIVE occurrence of a `Gaps:`/`Recommendations:` marker
(`claimSummary`), but the code's summary regex has no `/i` flag: on the
input `gaps: a` the claim predicts the empty summary while the code
returns the whole text. -/
theorem claim_C5_counterexample :
    ¬ ((parseAnalysisOutput "gaps: a".toList).summary
        = claimSummary "gaps: a".toList) := by
  decide

/-- C5, amended: for every input text, the summary equals the prefix of
the text up to the first blank-line boundary or the first
CASE-SENSITIVE occurrence of the literal `Gaps:` or `Recommendations:`
marker (whichever comes first — the minimum of the three first
occurrences), with surrounding whitespace trimmed. -/
theorem claim_C5 (t : Str) :
    (parseAnalysisOutput t).summary
    = jsTrim (t.take (min (firstOcc nnPat t)
        (min (firstOcc gapsColon t) (firstOcc recsColon t)))) := by
  cases t with
  | nil => rfl
  | cons c cs =>
    show jsTrim ((c :: cs).take (summaryLen (c :: cs))) = _
    rw [summaryLen_eq_min]

/-- C6, counterexample: the input `A gap exists` contains no `Gaps:`
marker and no `Recommendations:` marker (neither case-sensitively nor
case-insensitively), yet the parser's gaps list is nonempty, because
the gaps regex `/Gaps?:?\s*/i` already matches on the bare substring
`gap`. -/
theorem claim_C6_counterexample :
    containsCI ['g', 'a', 'p', 's', ':'] "A gap exists".toList = false
    ∧ containsCI
        ['r', 'e', 'c', 'o', 'm', 'm', 'e', 'n', 'd', 'a', 't', 'i', 'o', 'n', 's', ':']
        "A gap exists".toList = false
    ∧ containsLit gapsColon "A gap exists".toList = false
    ∧ containsLit recsColon "A gap exists".toList = false
    ∧ ¬ ((parseAnalysisOutput "A gap exists".toList).gaps = []) := by
  decide

/-- C6, amended: for every input text containing no case-insensitive
occurrence of the substring `Gap`, no case-insensitive occurrence of
the substring `Recommendation`, and no blank-line boundary `\n\n`, the
parser returns an empty gaps list, an empty recommendations list, and
the whole text (trimmed) as summary; in particular
`Just a plain sentence.` yields itself as summary with both lists
empty. -/
theorem claim_C6 (t : Str) (hg : containsCI gapPat t = false)
    (hr : containsCI recPat t = false) (hn : containsLit nnPat t = false) :
    parseAnalysisOutput t = ⟨jsTrim t, [], []⟩ := by
  cases t with
  | nil => rfl
  | cons c cs =>
    have h1 := summaryLen_full (c :: cs) hn hg hr
    have h2 := gapsTail_none (c :: cs) hg
    have h3 := recsTail_none (c :: cs) hr
    simp [parseAnalysisOutput, h1, h2, h3]

/-- Witness for C6 at the specification's marker-free example. -/
theorem claim_C6_witness :
    parseAnalysisOutput "Just a plain sentence.".toList
    = ⟨jsTrim "Just a plain sentence.".toList, [], []⟩ :=
  claim_C6 _ (by decide) (by decide) (by decide)

/-- C7: an analyze request with no credential available anywhere is
rejected with 401 and no upstream call is made; an analyze request with
a credential but an absent or empty `input_value` is rejected with 400
and no upstream call is made. -/
theorem claim_C7 (r : AnalyzeReq) :
    ((truthy r.auth.serverKey = false ∧ truthy r.auth.headerKey = false ∧
        truthy r.auth.queryKey = false) →
      analyzeValidate r = .reject 401 ∧ analyzeUpstreamCalled r = false)
    ∧ (∀ k, getApiKey r.auth = some k → truthy r.input = false →
      analyzeValidate r = .reject 400 ∧ analyzeUpstreamCalled r = false) := by
  constructor
  · rintro ⟨h1, h2, h3⟩
    have hk : getApiKey r.auth = none := by simp [getApiKey, h1, h2, h3]
    simp [analyzeValidate, analyzeUpstreamCalled, hk]
  · intro k hk hin
    simp [analyzeValidate, analyzeUpstreamCalled, hk, hin]

/-- Witness for C7: one credential-free request (401) and one request
with a server key but an empty query (400). -/
theorem claim_C7_witness :
    (analyzeValidate ⟨⟨none, none, none⟩, some "q", true⟩ = .reject 401
      ∧ analyzeUpstreamCalled ⟨⟨none, none, none⟩, some "q", true⟩ = false)
    ∧ (analyzeValidate ⟨⟨some "k", none, none⟩, some "", false⟩ = .reject 400
      ∧ analyzeUpstreamCalled ⟨⟨some "k", none, none⟩, some "", false⟩ = false) :=
  ⟨(claim_C7 _).1 (by exact ⟨rfl, rfl, rfl⟩),
   (claim_C7 _).2 "k" (by decide) (by decide)⟩

/-- The `image/png` upload of claim C8. -/
def pngReq : FileInfo := ⟨"shot.png", "image/png", 2048, "uploads/1-shot.png"⟩

/-- C8, counterexample: an upload whose MIME type is `image/png` is
rejected before any upstream call, but with status 500, not 400: the
multer `fileFilter` error reaches Express's default error handler (the
app installs no error middleware), which answers 500. -/
theorem claim_C8_counterexample :
    (uploadPipeline ⟨some "key", none, none⟩ (some pngReq) (.ok "p")).1.status = 500
    ∧ ¬ ((uploadPipeline ⟨some "key", none, none⟩ (some pngReq) (.ok "p")).1.status = 400)
    ∧ (uploadPipeline ⟨some "key", none, none⟩ (some pngReq) (.ok "p")).1.upstreamKey = none := by
  decide

/-- C8, amended: for every upload whose MIME type is outside the
allowed set, the relay rejects it before any upstream call is made and
before any temporary file is written, but with a 500 server error
(Express's default error handler), not a 400. -/
theorem claim_C8 (auth : ReqAuth) (f : FileInfo) (up : UpstreamResult)
    (h : allowedMimes.contains f.mimetype = false) :
    uploadPipeline auth (some f) up = (⟨500, none⟩, ⟨false, 0⟩) := by
  have h' : f.mimetype ∉ allowedMimes := by simpa using h
  simp [uploadPipeline, h']

/-- Witness for C8 at the `image/png` upload. -/
theorem claim_C8_witness :
    uploadPipeline ⟨some "key", none, none⟩ (some pngReq) (.fail "unused")
    = (⟨500, none⟩, ⟨false, 0⟩) :=
  claim_C8 _ _ _ (by decide)

/-- C9: a configured (truthy) server-side credential is always the
resolved credential, regardless of caller-supplied values; otherwise
the header wins over the query parameter; and on the upload, analyze
and monitor endpoints the credential put on the upstream call is
exactly the resolved one. -/
theorem claim_C9 (auth : ReqAuth) :
    (truthy auth.serverKey = true → getApiKey auth = auth.serverKey)
    ∧ (truthy auth.serverKey = false → truthy auth.headerKey = true →
        getApiKey auth = auth.headerKey)
    ∧ (truthy auth.serverKey = false → truthy auth.headerKey = false →
        truthy auth.queryKey = true → getApiKey auth = auth.queryKey)
    ∧ (∀ (file : Option FileInfo) (up : UpstreamResult),
        (uploadPipeline auth file up).1.upstreamKey ≠ none →
        (uploadPipeline auth file up).1.upstreamKey = getApiKey auth)
    ∧ (∀ (inp : Option String) (b : Bool) (k : String) (str : Bool),
        analyzeValidate ⟨auth, inp, b⟩ = .run k str → some k = getApiKey auth)
    ∧ (∀ up : UpstreamResult, (monitorHandler auth up).2 ≠ none →
        (monitorHandler auth up).2 = getApiKey auth) := by
  refine ⟨?_, ?_, ?_, ?_, ?_, ?_⟩
  · intro h; simp [getApiKey, h]
  · intro h1 h2; simp [getApiKey, h1, h2]
  · intro h1 h2 h3; simp [getApiKey, h1, h2, h3]
  · intro file up h
    match file with
    | none => simp [uploadPipeline, uploadHandler] at h
    | some f =>
      by_cases hm : allowedMimes.contains f.mimetype = true
      · simp only [uploadPipeline, hm, if_true] at h ⊢
        cases hk : getApiKey auth with
        | none => simp [uploadHandler, hk] at h
        | some k => cases up <;> simp [uploadHandler, hk]
      · have hm' : f.mimetype ∉ allowedMimes := by
          rw [Bool.not_eq_true] at hm
          simpa using hm
        simp [uploadPipeline, hm'] at h
  · intro inp b k str h
    cases hk : getApiKey auth with
    | none => simp [analyzeValidate, hk] at h
    | some k2 =>
      simp only [analyzeValidate, hk] at h
      by_cases hi : truthy inp = true
      · rw [if_pos hi] at h
        cases h
        rfl
      · rw [if_neg hi] at h
        simp at h
  · intro up h
    cases hk : getApiKey auth with
    | none => simp [monitorHandler, hk] at h
    | some k => cases up <;> simp [monitorHandler, hk]

/-- Witness for C9: the three precedence cases at concrete
credentials. -/
theorem claim_C9_witness :
    getApiKey ⟨some "srv", some "hdr", some "qry"⟩ = some "srv"
    ∧ getApiKey ⟨none, some "hdr", some "qry"⟩ = some "hdr"
    ∧ getApiKey ⟨none, none, some "qry"⟩ = some "qry" :=
  ⟨(claim_C9 _).1 (by decide),
   (claim_C9 _).2.1 (by decide) (by decide),
   (claim_C9 _).2.2.1 (by decide) (by decide) (by decide)⟩

/-- C10, counterexample: only ONE leading bullet glyph is stripped per
line, so on `Gaps:\n- - x` the parser returns the gaps element `- x`,
which starts with a bullet glyph, contradicting the claim that no
element has a leading bullet glyph. -/
theorem claim_C10_counterexample :
    ¬ (∀ x ∈ (parseAnalysisOutput "Gaps:\n- - x".toList).gaps,
        leadingBullet x = false) := by
  decide

/-- C10, amended: the parser is total (null/undefined and the empty
string yield the empty record), and every element of the gaps and
recommendations lists is a non-empty string with no leading or trailing
whitespace (trimming is idempotent on it); a single leading bullet
glyph has been stripped per line, but an element may still begin with a
further bullet glyph. -/
theorem claim_C10 :
    parseAnalysisOutputOpt none = ⟨[], [], []⟩
    ∧ ∀ (t x : Str),
        (x ∈ (parseAnalysisOutput t).gaps
          ∨ x ∈ (parseAnalysisOutput t).recommendations) →
        x ≠ [] ∧ jsTrim x = x := by
  refine ⟨rfl, ?_⟩
  intro t x hx
  cases t with
  | nil =>
    rcases hx with h | h <;> simp [parseAnalysisOutput] at h
  | cons c cs =>
    rcases hx with h | h
    · cases hg : gapsTail (c :: cs) with
      | none => simp [parseAnalysisOutput, hg] at h
      | some rest =>
        simp only [parseAnalysisOutput, hg] at h
        exact cleanLines_mem _ _ h
    · cases hg : recsTail (c :: cs) with
      | none => simp [parseAnalysisOutput, hg] at h
      | some rest =>
        simp only [parseAnalysisOutput, hg] at h
        exact cleanLines_mem _ _ h

/-- Witness for C10 at a concrete gaps element. -/
theorem claim_C10_witness :
    ("ok".toList ≠ ([] : Str)) ∧ jsTrim "ok".toList = "ok".toList :=
  claim_C10.2 "Gaps:\n- ok".toList "ok".toList (Or.inl (by decide))

end RGA
